import Mathlib

/-!
Verification of `neurons/form/form.py` (HTML form rendering).

This file gives a shallow embedding of the form-rendering module:

* `selsafe`, `camel_case_to_uscore` — string helpers;
* an HTML node model (`Node`) with attribute dictionaries, the input/label
  generators and the primitive-type serializers (`unicode_to_parent`,
  `date_to_parent`, …);
* the array renderers (`pull_to_parent`, `push_to_parent`, `array_to_parent`);
* the tab/fieldset grouping loop of `complex_model_to_parent`, with the
  field sort key `Tform_key` (Python 2 comparison semantics: `None`
  precedes any tuple, which is what makes the mixed-annotation sort total);
* a fuel-indexed model of the recursive render tree-walk, for the
  termination claim.

Theorems named `C1_…` … `C10_…` settle the corresponding specification
claims.
-/

namespace NeuronsForm

/-! ## String helpers -/

/-- One `str.replace` step of Python restricted to a single-character
pattern: every occurrence of the character `c` is replaced by the character
list `r`.  `selsafe` only ever replaces single characters. -/
def replaceCh (c : Char) (r : List Char) : List Char → List Char
  | [] => []
  | x :: xs => (if x = c then r else [x]) ++ replaceCh c r xs

/-- `HtmlWidget.selsafe`:
`s.replace('[', '').replace(']', '').replace('.', '__')`. -/
def selsafe (s : String) : String :=
  ⟨replaceCh '.' ['_', '_'] (replaceCh ']' [] (replaceCh '[' [] s.data))⟩

/-- Modelled from the claim's wording, for comparison with `selsafe`:
every `.` becomes `__`, every bracket is removed, all other characters are
kept in order. -/
def selsafeSpec (s : String) : String :=
  ⟨s.data.flatMap (fun x =>
      if x = '[' then [] else if x = ']' then [] else
      if x = '.' then ['_', '_'] else [x])⟩

theorem replaceCh_append (c : Char) (r : List Char) (a b : List Char) :
    replaceCh c r (a ++ b) = replaceCh c r a ++ replaceCh c r b := by
  induction a with
  | nil => rfl
  | cons x xs ih => simp [replaceCh, ih]

theorem selsafe_data (s : String) :
    (selsafe s).data = s.data.flatMap (fun x =>
      if x = '[' then [] else if x = ']' then [] else
      if x = '.' then ['_', '_'] else [x]) := by
  show replaceCh '.' ['_', '_'] (replaceCh ']' [] (replaceCh '[' [] s.data)) = _
  induction s.data with
  | nil => rfl
  | cons x xs ih =>
      by_cases h1 : x = '['
      · simp [replaceCh, h1, ih]
      · by_cases h2 : x = ']'
        · simp [replaceCh, h1, h2, ih]
        · by_cases h3 : x = '.'
          · simp [replaceCh, h1, h2, h3, ih, replaceCh_append]
          · simp [replaceCh, h1, h2, h3, ih]

theorem mem_selsafe_data {s : String} {c : Char} (h : c ∈ (selsafe s).data) :
    c ≠ '[' ∧ c ≠ ']' ∧ c ≠ '.' := by
  rw [selsafe_data] at h
  rcases List.mem_flatMap.mp h with ⟨x, _, hx⟩
  by_cases h1 : x = '[' <;> by_cases h2 : x = ']' <;> by_cases h3 : x = '.' <;>
    simp [h1, h2, h3] at hx <;>
    first
      | (rcases hx with rfl | rfl <;> refine ⟨by decide, by decide, by decide⟩)
      | (subst hx; refine ⟨by simpa [h1] using h1, by simpa using h2, by simpa using h3⟩)

/-- The claim `C9`: `selsafe` output contains no `[`, `]` or `.`;
it acts characterwise as the claim describes; and it is idempotent. -/
theorem C9_selsafe_clean_idempotent (s : String) :
    (∀ c ∈ (selsafe s).data, c ≠ '[' ∧ c ≠ ']' ∧ c ≠ '.') ∧
    selsafe s = selsafeSpec s ∧
    selsafe (selsafe s) = selsafe s := by
  refine ⟨fun c hc => mem_selsafe_data hc, ?_, ?_⟩
  · apply String.ext
    simpa [selsafeSpec] using selsafe_data s
  · apply String.ext
    rw [selsafe_data (selsafe s), selsafe_data s]
    generalize s.data = l
    induction l with
    | nil => rfl
    | cons x xs ih =>
        by_cases h1 : x = '['
        · simp [h1, ih]
        · by_cases h2 : x = ']'
          · simp [h1, h2, ih]
          · by_cases h3 : x = '.'
            · simp [h1, h2, h3, ih]
            · simp [h1, h2, h3, ih]

/-- Concrete instantiation of `C9_selsafe_clean_idempotent` (the
membership hypothesis of the first conjunct discharged at a character of
`selsafe "a.b[0]"`). -/
theorem C9_selsafe_clean_idempotent_witness :
    ('a' ≠ '[' ∧ 'a' ≠ ']' ∧ 'a' ≠ '.') ∧
    selsafe (selsafe "a.b[0]") = selsafe "a.b[0]" :=
  ⟨(C9_selsafe_clean_idempotent "a.b[0]").1 'a' (by decide),
   (C9_selsafe_clean_idempotent "a.b[0]").2.2⟩

/-- `camel_case_to_uscore_gen`: the parameter `i` is the enumeration index;
an upper-case letter yields an underscore (when not first) and its
lower-case form. -/
def ccGen : Nat → List Char → List Char
  | _, [] => []
  | i, c :: rest =>
      (if c.isUpper then (if i > 0 then ['_'] else []) ++ [c.toLower] else [c])
        ++ ccGen (i + 1) rest

/-- `camel_case_to_uscore`. -/
def camel_case_to_uscore (s : String) : String := ⟨ccGen 0 s.data⟩

/-! ## HTML node model

The lxml `E` builder and the streaming `parent.write` target are modelled
by a finite tree of elements with ordered attribute lists.  Python dict
assignment `elt.attrib[k] = v` is `setAttr` (replace the binding if the key
is present, append it otherwise); lookup is `getAttr`. -/

inductive Node where
  | elem (tag : String) (attrs : List (String × String)) (children : List Node)
  | text (s : String)

def setAttr (k v : String) : List (String × String) → List (String × String)
  | [] => [(k, v)]
  | (k', v') :: rest => if k' = k then (k, v) :: rest else (k', v') :: setAttr k v rest

def getAttr (k : String) : List (String × String) → Option String
  | [] => none
  | (k', v') :: rest => if k' = k then some v' else getAttr k rest

def Node.tagOf : Node → String
  | .elem t _ _ => t
  | .text _ => ""

def Node.attrsOf : Node → List (String × String)
  | .elem _ a _ => a
  | .text _ => []

def Node.childrenOf : Node → List Node
  | .elem _ _ c => c
  | .text _ => []

/-- Attribute lookup on a node (`elt.attrib[k]`, total form). -/
def Node.attr (n : Node) (k : String) : Option String := getAttr k n.attrsOf

/-- Attribute assignment on a node (`elt.attrib[k] = v`). -/
def Node.setA (n : Node) (k v : String) : Node :=
  match n with
  | .elem t a c => .elem t (setAttr k v a) c
  | .text s => .text s

theorem getAttr_setAttr_self (k v : String) (l : List (String × String)) :
    getAttr k (setAttr k v l) = some v := by
  induction l with
  | nil => simp [setAttr, getAttr]
  | cons p rest ih =>
      obtain ⟨k', v'⟩ := p
      by_cases h : k' = k <;> simp [setAttr, getAttr, h, ih]

theorem getAttr_setAttr_ne {k k' : String} (v : String) (l : List (String × String))
    (h : k' ≠ k) : getAttr k (setAttr k' v l) = getAttr k l := by
  induction l with
  | nil => simp [setAttr, getAttr, h]
  | cons p rest ih =>
      obtain ⟨k₀, v₀⟩ := p
      by_cases h0 : k₀ = k'
      · subst h0
        simp [setAttr, getAttr, h, Ne.symm h]
      · by_cases h1 : k₀ = k
        · simp [setAttr, getAttr, h0, h1, Ne.symm h]
        · simp [setAttr, getAttr, h0, h1, ih]

theorem tagOf_setA (n : Node) (k v : String) : (n.setA k v).tagOf = n.tagOf := by
  cases n <;> rfl

theorem attr_setA_self (n : Node) (k v : String) (ht : n.tagOf ≠ "") :
    (n.setA k v).attr k = some v := by
  cases n with
  | elem t a c => simp [Node.setA, Node.attr, Node.attrsOf, getAttr_setAttr_self]
  | text s => simp [Node.tagOf] at ht

theorem attr_setA_ne (n : Node) {k k' : String} (v : String) (h : k' ≠ k) :
    (n.setA k' v).attr k = n.attr k := by
  cases n with
  | elem t a c => simp [Node.setA, Node.attr, Node.attrsOf, getAttr_setAttr_ne v a h]
  | text s => rfl

/-! ## Decimal formatting: `'%09d' % i`

`natDigs` produces the decimal digits of a natural number (fuel-indexed so
that it is structural and evaluates by `decide`); `pyFmt09` is Python's
`'%09d'` conversion: sign, then the digits left-padded with `0` to a total
width of nine characters. -/

def digCh (n : Nat) : Char := Char.ofNat (48 + n)

def natDigsAux : Nat → Nat → List Char
  | 0, _ => []
  | fuel + 1, n => if n < 10 then [digCh n]
                   else natDigsAux fuel (n / 10) ++ [digCh (n % 10)]

def natDigs (n : Nat) : List Char := natDigsAux (n + 1) n

def padZeros (w : Nat) (ds : List Char) : List Char :=
  List.replicate (w - ds.length) '0' ++ ds

def pyFmt09 (i : Int) : String :=
  if i < 0 then ⟨'-' :: padZeros 8 (natDigs i.natAbs)⟩
  else ⟨padZeros 9 (natDigs i.natAbs)⟩

/-- The array item key `'%s[%09d]' % (key, i)`. -/
def arrKey (key : String) (i : Int) : String := key ++ "[" ++ pyFmt09 i ++ "]"

/-- Decimal value of a digit string (used only to prove key injectivity). -/
def digsVal (l : List Char) : Nat := l.foldl (fun a c => a * 10 + (c.toNat - 48)) 0

theorem digsVal_aux (l : List Char) :
    ∀ a : Nat, l.foldl (fun a c => a * 10 + (c.toNat - 48)) a
      = a * 10 ^ l.length + digsVal l := by
  induction l with
  | nil => intro a; simp [digsVal]
  | cons c rest ih =>
      intro a
      simp only [List.foldl_cons, List.length_cons, digsVal]
      rw [ih, ih (0 * 10 + (c.toNat - 48))]
      ring

theorem digsVal_append (a b : List Char) :
    digsVal (a ++ b) = digsVal a * 10 ^ b.length + digsVal b := by
  simp only [digsVal, List.foldl_append]
  rw [← digsVal, digsVal_aux]
  rfl

theorem digCh_toNat {n : Nat} (h : n < 10) : (digCh n).toNat = 48 + n := by
  interval_cases n <;> decide

theorem digsVal_natDigsAux : ∀ fuel n, n < fuel → digsVal (natDigsAux fuel n) = n := by
  intro fuel
  induction fuel with
  | zero => intro n h; omega
  | succ f ih =>
      intro n h
      by_cases h10 : n < 10
      · simp [natDigsAux, h10, digsVal, digCh_toNat h10]
      · have hrec : n / 10 < f := by omega
        simp only [natDigsAux, h10, if_false, digsVal_append, ih _ hrec]
        have hm : n % 10 < 10 := Nat.mod_lt _ (by omega)
        simp [digsVal, digCh_toNat hm]
        omega

theorem digsVal_natDigs (n : Nat) : digsVal (natDigs n) = n :=
  digsVal_natDigsAux (n + 1) n (Nat.lt_succ_self n)

theorem digsVal_replicate_zero (k : Nat) :
    ∀ a, (List.replicate k '0').foldl (fun a c => a * 10 + (c.toNat - 48)) a = a * 10 ^ k := by
  induction k with
  | zero => intro a; simp
  | succ m ih =>
      intro a
      simp only [List.replicate_succ, List.foldl_cons, ih]
      have : ('0' : Char).toNat - 48 = 0 := by decide
      rw [this]
      ring

theorem digsVal_padZeros (w : Nat) (ds : List Char) :
    digsVal (padZeros w ds) = digsVal ds := by
  simp only [padZeros, digsVal, List.foldl_append, digsVal_replicate_zero]
  simp

theorem pyFmt09_nat_inj {i j : Nat} (h : pyFmt09 (i : Int) = pyFmt09 (j : Int)) : i = j := by
  have hi : ¬ ((i : Int) < 0) := by omega
  have hj : ¬ ((j : Int) < 0) := by omega
  simp only [pyFmt09, hi, hj, if_false] at h
  have hdata : padZeros 9 (natDigs (Int.natAbs i)) = padZeros 9 (natDigs (Int.natAbs j)) := by
    have := congrArg String.data h
    simpa using this
  have := congrArg digsVal hdata
  rw [digsVal_padZeros, digsVal_padZeros, digsVal_natDigs, digsVal_natDigs] at this
  simpa using this

theorem arrKey_nat_inj {key : String} {i j : Nat}
    (h : arrKey key (i : Int) = arrKey key (j : Int)) : i = j := by
  apply pyFmt09_nat_inj
  have hdata := congrArg String.data h
  simp only [arrKey, String.data_append] at hdata
  have h1 := List.append_cancel_right hdata
  have h2 := List.append_cancel_left h1
  exact String.ext h2

/-! ## Field attributes and input generation

`ClsAttrs` models the result of `get_cls_attrs` for a field.  Unbounded
defaults (`max_len`, `max_str_len`, the `ge/gt/le/lt` bounds,
`fraction_digits = inf`) are `none`; the source compares the attribute
against the default before emitting the constraint, which here becomes a
match on the option. -/

structure ClsAttrs where
  pattern : Option String := none
  min_occurs : Nat := 0
  nullable : Bool := true
  max_len : Option Nat := none
  min_len : Nat := 0
  max_str_len : Option Nat := none
  ge : Option Int := none
  gt : Option Int := none
  le : Option Int := none
  lt : Option Int := none
  fraction_digits : Option Nat := none
  format : Option String := none
  no_write : Bool := false

/-- `HtmlWidget._gen_input_elt_id` with `array_index=None`. -/
def gen_input_elt_id (name : String) : String := selsafe name ++ "_input"

/-- `HtmlWidget._gen_input_attrs_novalue`. -/
def gen_input_attrs_novalue (typeName name : String) (a : ClsAttrs) :
    List (String × String) :=
  let base := [("id", gen_input_elt_id name), ("name", name),
               ("class", camel_case_to_uscore typeName), ("type", "text")]
  let base := match a.pattern with
    | none => base
    | some p => base ++ [("pattern", p)]
  if a.min_occurs = 1 ∧ a.nullable = false then base ++ [("required", "")] else base

/-- `HtmlWidget._gen_input_attrs`.  `inst` is the instance already passed
through `to_unicode` (an opaque collaborator), so `None` stays `none`.
The guard `not (inst is None and isinstance(inst, type))` in the source is
always true (`None` is not a type), so only the `val is not None` check
remains. -/
def gen_input_attrs (typeName name : String) (a : ClsAttrs) (inst : Option String) :
    List (String × String) :=
  match inst with
  | none => gen_input_attrs_novalue typeName name a
  | some val => setAttr "value" val (gen_input_attrs_novalue typeName name a)

/-- `HtmlWidget._gen_input`.  Both source branches (the
`html.fromstring('<input required>')` one and the plain `E.input` one)
produce an input element carrying exactly the bindings of
`_gen_input_attrs`; the branches differ only in attribute order. -/
def gen_input (typeName name : String) (a : ClsAttrs) (inst : Option String) : Node :=
  Node.elem "input" (gen_input_attrs typeName name a inst) []

/-- `HtmlWidget._gen_label`; `lbl` is the localized text `self.trc(...)`. -/
def gen_label (lbl : String) (input : Node) : Node :=
  .elem "label" [("for", (input.attr "id").getD "")] [.text lbl]

/-- `_idiv`. -/
def idiv (children : List Node) : Node :=
  .elem "div" [("class", "label-input-wrapper")] children

/-- `HtmlWidget._gen_input_unicode` (the element part). -/
def gen_input_unicode (typeName name : String) (a : ClsAttrs) (inst : Option String) :
    Node :=
  let elt := (gen_input typeName name a inst).setA "type" "text"
  let elt := match a.max_len with
    | none => elt
    | some m => elt.setA "maxlength" (toString m)
  if a.min_len > 0 then elt.setA "minlength" (toString a.min_len) else elt

/-- `HtmlWidget._apply_number_constraints`. -/
def apply_number_constraints (a : ClsAttrs) (elt : Node) : Node :=
  let elt := match a.max_str_len with
    | none => elt
    | some m => elt.setA "maxlength" (toString m)
  if elt.attr "type" = some "range" then
    let elt := match a.ge with | none => elt | some x => elt.setA "min" (toString x)
    let elt := match a.gt with | none => elt | some x => elt.setA "min" (toString x)
    let elt := match a.le with | none => elt | some x => elt.setA "max" (toString x)
    match a.lt with | none => elt | some x => elt.setA "max" (toString x)
  else elt

/-- `str(10**(-int(fraction_digits)))` (or `'any'` for infinite). -/
def decimal_step (fd : Option Nat) : String :=
  match fd with
  | none => "any"
  | some 0 => "1"
  | some (d + 1) => ⟨'0' :: '.' :: (List.replicate d '0' ++ ['1'])⟩

/-! ## Primitive serializers

Each `*_to_parent` returns the node written to the parent.  `lbl` is the
localized label text, `typeName` the spyne type name, `inst` the instance
already converted by the opaque `to_unicode`/`to_string`. -/

def unicode_to_parent (lbl typeName name : String) (a : ClsAttrs)
    (inst : Option String) : Node :=
  let elt := gen_input_unicode typeName name a inst
  idiv [gen_label lbl elt, elt]

def decimal_to_parent (lbl typeName name : String) (a : ClsAttrs)
    (inst : Option String) : Node :=
  let elt := (gen_input typeName name a inst).setA "type" "number"
  let elt := elt.setA "step" (decimal_step a.fraction_digits)
  let elt := apply_number_constraints a elt
  idiv [gen_label lbl elt, elt]

def boolean_to_parent (lbl typeName name : String) (a : ClsAttrs)
    (inst : Option Bool) : Node :=
  let elt := gen_input typeName name a
      (inst.map (fun b => if b then "true" else "false"))
  let elt := (elt.setA "type" "checkbox").setA "value" "true"
  let elt := if inst = some true then elt.setA "checked" "" else elt
  idiv [elt, gen_label lbl elt]

def integer_to_parent (lbl typeName name : String) (a : ClsAttrs)
    (inst : Option String) : Node :=
  let elt := (gen_input typeName name a inst).setA "type" "number"
  let elt := apply_number_constraints a elt
  idiv [gen_label lbl elt, elt]

def duration_to_parent (lbl typeName name : String) (a : ClsAttrs)
    (inst : Option String) : Node :=
  let elt := gen_input typeName name a inst
  idiv [gen_label lbl elt, elt]

/-! ## Date/time picker serializers -/

def date_format (f : Option String) : String :=
  match f with
  | none => "yy-mm-dd"
  | some f => ((f.replace "%Y" "yy").replace "%m" "mm").replace "%d" "dd"

def time_format (f : Option String) : String :=
  match f with
  | none => "HH:MM:SS"
  | some f => ((f.replace "%H" "HH").replace "%M" "MM").replace "%S" "SS"

def datetime_format (f : Option String) : String :=
  match f with
  | none => "yy-mm-dd HH:MM:SS"
  | some f =>
      let f := (f.replace "%Y" "yy").replace "%m" "mm"
      let f := (f.replace "%d" "dd").replace "%H" "HH"
      (f.replace "%M" "MM").replace "%S" "SS"

def date_code (fid fmt : String) : List String :=
  ["$(\x27#" ++ fid ++ "\x27).datepicker();",
   "$(\x27#" ++ fid ++ "\x27).datepicker(\x27option\x27, \x27dateFormat\x27, \x27"
     ++ fmt ++ "\x27);"]

def date_script_lines (fid fmt : String) (inst : Option String) : List String :=
  match inst with
  | none => date_code fid fmt
  | some v => date_code fid fmt ++
      ["$(\x27#" ++ fid ++ "\x27).datepicker(\x27setDate\x27, \x27" ++ v ++ "\x27);"]

def time_code (fid fmt : String) : List String :=
  ["$(\x27#" ++ fid ++ "\x27).timepicker();",
   "$(\x27#" ++ fid ++ "\x27).timepicker(\x27option\x27, \x27timeFormat\x27, \x27"
     ++ fmt ++ "\x27);"]

def time_script_lines (fid fmt : String) (inst : Option String) : List String :=
  match inst with
  | none => time_code fid fmt
  | some v => time_code fid fmt ++
      ["$(\x27#" ++ fid ++ "\x27).timepicker(\x27setDate\x27, \x27" ++ v ++ "\x27);"]

def datetime_code (fid fmt : String) : List String :=
  ["$(\x27#" ++ fid ++ "\x27).datetimepicker();",
   "$(\x27#" ++ fid ++ "\x27).datetimepicker(\x27option\x27, \x27DateTimeFormat\x27, \x27"
     ++ fmt ++ "\x27);"]

def datetime_script_lines (fid fmt : String) (inst : Option String) : List String :=
  match inst with
  | none => datetime_code fid fmt
  | some v => datetime_code fid fmt ++
      ["$(\x27#" ++ fid ++ "\x27).datetimepicker(\x27setDate\x27, \x27" ++ v ++ "\x27);"]

/-- `_format_js`: the substituted lines joined with newline+tab inside a
jQuery ready wrapper, in a script tag. -/
def format_js (lines : List String) : Node :=
  .elem "script" [("type", "text/javascript")]
    [.text ("\n$(function()\x7b\n\x09" ++ String.intercalate "\n\x09" lines
        ++ "\n\x7d);")]

def date_to_parent (lbl typeName name : String) (a : ClsAttrs)
    (inst : Option String) : Node :=
  let elt := (gen_input typeName name a inst).setA "type" "text"
  let fid := (elt.attr "id").getD ""
  let script := format_js (date_script_lines fid (date_format a.format) inst)
  idiv [gen_label lbl elt, elt, script]

def time_to_parent (lbl typeName name : String) (a : ClsAttrs)
    (inst : Option String) : Node :=
  let elt := (gen_input typeName name a inst).setA "type" "text"
  let fid := (elt.attr "id").getD ""
  let script := format_js (time_script_lines fid (time_format a.format) inst)
  idiv [gen_label lbl elt, elt, script]

/-- `datetime_to_parent`: note the source passes `None` (not `inst`) to
`_gen_input`, but keys the `setDate` branch on `inst` itself. -/
def datetime_to_parent (lbl typeName name : String) (a : ClsAttrs)
    (inst : Option String) : Node :=
  let elt := (gen_input typeName name a none).setA "type" "text"
  let fid := (elt.attr "id").getD ""
  let script := format_js (datetime_script_lines fid (datetime_format a.format) inst)
  idiv [gen_label lbl elt, elt, script]

/-! ## Lemmas about the generated input elements -/

theorem getAttr_append_left {k v : String} {l : List (String × String)}
    (m : List (String × String)) (h : getAttr k l = some v) :
    getAttr k (l ++ m) = some v := by
  induction l with
  | nil => simp [getAttr] at h
  | cons p rest ih =>
      obtain ⟨k0, v0⟩ := p
      by_cases h0 : k0 = k
      · simp [getAttr, h0] at h ⊢
        exact h
      · simp [getAttr, h0] at h ⊢
        exact ih h

theorem gen_input_attrs_novalue_id (typeName name : String) (a : ClsAttrs) :
    getAttr "id" (gen_input_attrs_novalue typeName name a)
      = some (gen_input_elt_id name) := by
  unfold gen_input_attrs_novalue
  cases hp : a.pattern with
  | none =>
      simp only [hp]
      split
      · exact getAttr_append_left _ (by simp [getAttr])
      · simp [getAttr]
  | some p =>
      simp only [hp]
      split
      · exact getAttr_append_left _ (getAttr_append_left _ (by simp [getAttr]))
      · exact getAttr_append_left _ (by simp [getAttr])

theorem gen_input_id (typeName name : String) (a : ClsAttrs) (inst : Option String) :
    (gen_input typeName name a inst).attr "id" = some (gen_input_elt_id name) := by
  cases inst with
  | none =>
      show getAttr "id" (gen_input_attrs typeName name a none) = _
      exact gen_input_attrs_novalue_id typeName name a
  | some v =>
      show getAttr "id" (gen_input_attrs typeName name a (some v)) = _
      unfold gen_input_attrs
      rw [getAttr_setAttr_ne _ _ (by decide)]
      exact gen_input_attrs_novalue_id typeName name a

theorem gen_input_tag (typeName name : String) (a : ClsAttrs) (inst : Option String) :
    (gen_input typeName name a inst).tagOf = "input" := rfl

theorem anc_attr_id (a : ClsAttrs) (elt : Node) :
    (apply_number_constraints a elt).attr "id" = elt.attr "id" := by
  unfold apply_number_constraints
  cases hms : a.max_str_len <;> simp only [hms] <;> split <;>
    cases hge : a.ge <;> cases hgt : a.gt <;> cases hle : a.le <;> cases hlt : a.lt <;>
      simp [hge, hgt, hle, hlt, attr_setA_ne]

theorem anc_tag (a : ClsAttrs) (elt : Node) :
    (apply_number_constraints a elt).tagOf = elt.tagOf := by
  unfold apply_number_constraints
  cases hms : a.max_str_len <;> simp only [hms] <;> split <;>
    cases hge : a.ge <;> cases hgt : a.gt <;> cases hle : a.le <;> cases hlt : a.lt <;>
      simp [hge, hgt, hle, hlt, tagOf_setA]

theorem gen_input_unicode_id (typeName name : String) (a : ClsAttrs)
    (inst : Option String) :
    (gen_input_unicode typeName name a inst).attr "id"
      = some (gen_input_elt_id name) := by
  unfold gen_input_unicode
  cases hml : a.max_len <;> simp only [hml] <;> split <;>
    simp [attr_setA_ne, gen_input_id]

theorem gen_input_unicode_tag (typeName name : String) (a : ClsAttrs)
    (inst : Option String) :
    (gen_input_unicode typeName name a inst).tagOf = "input" := by
  unfold gen_input_unicode
  cases hml : a.max_len <;> simp only [hml] <;> split <;>
    simp [tagOf_setA] <;> rfl

/-! ## Claim C7: labeled inputs -/

/-- The shape the claim asks of each primitive serializer's output. -/
def labeledInput (n : Node) : Prop :=
  n.tagOf = "div" ∧ n.attr "class" = some "label-input-wrapper" ∧
  ∃ inp, inp ∈ n.childrenOf ∧ ∃ lab, lab ∈ n.childrenOf ∧
    inp.tagOf = "input" ∧ lab.tagOf = "label" ∧
    (inp.attr "id").isSome ∧ lab.attr "for" = inp.attr "id"

theorem labeledInput_of_mem (ch : List Node) (elt : Node) (lbl : String)
    (hmem1 : gen_label lbl elt ∈ ch) (hmem2 : elt ∈ ch)
    (hid : ∃ v, elt.attr "id" = some v) (htag : elt.tagOf = "input") :
    labeledInput (idiv ch) := by
  obtain ⟨v, hv⟩ := hid
  have hfor : (gen_label lbl elt).attr "for" = elt.attr "id" := by
    rw [hv]
    show getAttr "for" [("for", (elt.attr "id").getD "")] = some v
    rw [hv]
    rfl
  refine ⟨rfl, by simp [idiv, Node.attr, Node.attrsOf, getAttr], elt, ?_,
    gen_label lbl elt, ?_, htag, rfl, by simp [hv], hfor⟩
  · simpa [idiv, Node.childrenOf] using hmem2
  · simpa [idiv, Node.childrenOf] using hmem1

/-- The claim `C7`: every primitive serializer (Unicode, Decimal, Integer,
Boolean, Date, Time, DateTime, Duration) writes a `label-input-wrapper`
div containing an input and a label whose `for` attribute is the input's
id. -/
theorem C7_labeled_inputs (lbl typeName name : String) (a : ClsAttrs)
    (instS : Option String) (instB : Option Bool) :
    labeledInput (unicode_to_parent lbl typeName name a instS) ∧
    labeledInput (decimal_to_parent lbl typeName name a instS) ∧
    labeledInput (integer_to_parent lbl typeName name a instS) ∧
    labeledInput (boolean_to_parent lbl typeName name a instB) ∧
    labeledInput (date_to_parent lbl typeName name a instS) ∧
    labeledInput (time_to_parent lbl typeName name a instS) ∧
    labeledInput (datetime_to_parent lbl typeName name a instS) ∧
    labeledInput (duration_to_parent lbl typeName name a instS) := by
  refine ⟨?_, ?_, ?_, ?_, ?_, ?_, ?_, ?_⟩
  · exact labeledInput_of_mem _ (gen_input_unicode typeName name a instS) lbl
      (by simp) (by simp) ⟨gen_input_elt_id name, gen_input_unicode_id typeName name a instS⟩
      (gen_input_unicode_tag typeName name a instS)
  · exact labeledInput_of_mem _
      (apply_number_constraints a (((gen_input typeName name a instS).setA "type"
          "number").setA "step" (decimal_step a.fraction_digits))) lbl
      (by simp) (by simp)
      ⟨gen_input_elt_id name, by rw [anc_attr_id]; simp [attr_setA_ne, gen_input_id]⟩
      (by rw [anc_tag]; simp [tagOf_setA]; rfl)
  · exact labeledInput_of_mem _
      (apply_number_constraints a ((gen_input typeName name a instS).setA "type"
          "number")) lbl
      (by simp) (by simp)
      ⟨gen_input_elt_id name, by rw [anc_attr_id]; simp [attr_setA_ne, gen_input_id]⟩
      (by rw [anc_tag]; simp [tagOf_setA]; rfl)
  · unfold boolean_to_parent
    split
    · exact labeledInput_of_mem _
        ((((gen_input typeName name a (instB.map (fun b => if b then "true" else
            "false"))).setA "type" "checkbox").setA "value" "true").setA "checked" "")
        lbl (by simp) (by simp)
        ⟨gen_input_elt_id name, by simp [attr_setA_ne, gen_input_id]⟩
        (by simp [tagOf_setA]; rfl)
    · exact labeledInput_of_mem _
        (((gen_input typeName name a (instB.map (fun b => if b then "true" else
            "false"))).setA "type" "checkbox").setA "value" "true")
        lbl (by simp) (by simp)
        ⟨gen_input_elt_id name, by simp [attr_setA_ne, gen_input_id]⟩
        (by simp [tagOf_setA]; rfl)
  · exact labeledInput_of_mem _
      ((gen_input typeName name a instS).setA "type" "text") lbl
      (by simp) (by simp)
      ⟨gen_input_elt_id name, by simp [attr_setA_ne, gen_input_id]⟩
      (by simp [tagOf_setA]; rfl)
  · exact labeledInput_of_mem _
      ((gen_input typeName name a instS).setA "type" "text") lbl
      (by simp) (by simp)
      ⟨gen_input_elt_id name, by simp [attr_setA_ne, gen_input_id]⟩
      (by simp [tagOf_setA]; rfl)
  · exact labeledInput_of_mem _
      ((gen_input typeName name a none).setA "type" "text") lbl
      (by simp) (by simp)
      ⟨gen_input_elt_id name, by simp [attr_setA_ne, gen_input_id]⟩
      (by simp [tagOf_setA]; rfl)
  · exact labeledInput_of_mem _ (gen_input typeName name a instS) lbl
      (by simp) (by simp)
      ⟨gen_input_elt_id name, gen_input_id typeName name a instS⟩ rfl

/-! ## Claim C8: picker initialization scripts -/

theorem date_time_elt_id (typeName name : String) (a : ClsAttrs)
    (inst : Option String) :
    ((gen_input typeName name a inst).setA "type" "text").attr "id"
      = some (gen_input_elt_id name) := by
  simp [attr_setA_ne, gen_input_id]

/-- The claim `C8`: for Date, Time and DateTime fields the serializer
attaches a script that initializes the matching picker widget on the
generated input's id; the format defaults to `yy-mm-dd`, `HH:MM:SS` and
`yy-mm-dd HH:MM:SS` respectively when the field has no format; and the
script lines contain a `setDate` call exactly when the instance is not
`None` (the setDate line is the extra third line). -/
theorem C8_picker_scripts (lbl typeName name : String) (a : ClsAttrs)
    (inst : Option String) :
    (format_js (date_script_lines (gen_input_elt_id name) (date_format a.format) inst)
        ∈ (date_to_parent lbl typeName name a inst).childrenOf) ∧
    ((date_script_lines (gen_input_elt_id name) (date_format a.format) inst).head?
        = some ("$(\x27#" ++ gen_input_elt_id name ++ "\x27).datepicker();")) ∧
    (a.format = none → date_format a.format = "yy-mm-dd") ∧
    (inst = none → date_script_lines (gen_input_elt_id name) (date_format a.format) inst
        = date_code (gen_input_elt_id name) (date_format a.format) ∧
        (date_code (gen_input_elt_id name) (date_format a.format)).length = 2) ∧
    (∀ v, inst = some v → ∃ pre post,
        date_script_lines (gen_input_elt_id name) (date_format a.format) inst
          = date_code (gen_input_elt_id name) (date_format a.format)
              ++ [pre ++ ("setDate" ++ post)]) ∧
    (format_js (time_script_lines (gen_input_elt_id name) (time_format a.format) inst)
        ∈ (time_to_parent lbl typeName name a inst).childrenOf) ∧
    ((time_script_lines (gen_input_elt_id name) (time_format a.format) inst).head?
        = some ("$(\x27#" ++ gen_input_elt_id name ++ "\x27).timepicker();")) ∧
    (a.format = none → time_format a.format = "HH:MM:SS") ∧
    (inst = none → time_script_lines (gen_input_elt_id name) (time_format a.format) inst
        = time_code (gen_input_elt_id name) (time_format a.format) ∧
        (time_code (gen_input_elt_id name) (time_format a.format)).length = 2) ∧
    (∀ v, inst = some v → ∃ pre post,
        time_script_lines (gen_input_elt_id name) (time_format a.format) inst
          = time_code (gen_input_elt_id name) (time_format a.format)
              ++ [pre ++ ("setDate" ++ post)]) ∧
    (format_js (datetime_script_lines (gen_input_elt_id name)
          (datetime_format a.format) inst)
        ∈ (datetime_to_parent lbl typeName name a inst).childrenOf) ∧
    ((datetime_script_lines (gen_input_elt_id name) (datetime_format a.format)
        inst).head?
        = some ("$(\x27#" ++ gen_input_elt_id name ++ "\x27).datetimepicker();")) ∧
    (a.format = none → datetime_format a.format = "yy-mm-dd HH:MM:SS") ∧
    (inst = none → datetime_script_lines (gen_input_elt_id name)
          (datetime_format a.format) inst
        = datetime_code (gen_input_elt_id name) (datetime_format a.format) ∧
        (datetime_code (gen_input_elt_id name) (datetime_format a.format)).length = 2) ∧
    (∀ v, inst = some v → ∃ pre post,
        datetime_script_lines (gen_input_elt_id name) (datetime_format a.format) inst
          = datetime_code (gen_input_elt_id name) (datetime_format a.format)
              ++ [pre ++ ("setDate" ++ post)]) := by
  refine ⟨?_, ?_, ?_, ?_, ?_, ?_, ?_, ?_, ?_, ?_, ?_, ?_, ?_, ?_, ?_⟩
  · simp [date_to_parent, idiv, Node.childrenOf,
      date_time_elt_id typeName name a inst]
  · cases inst <;> rfl
  · intro h; rw [h]; rfl
  · intro h; subst h; exact ⟨rfl, rfl⟩
  · intro v hv
    subst hv
    refine ⟨"$(\x27#" ++ gen_input_elt_id name ++ "\x27).datepicker(\x27",
            "\x27, \x27" ++ v ++ "\x27);", ?_⟩
    show date_code _ _ ++ [_] = date_code _ _ ++ [_]
    congr 1
    congr 1
    apply String.ext
    simp [String.data_append]
  · simp [time_to_parent, idiv, Node.childrenOf,
      date_time_elt_id typeName name a inst]
  · cases inst <;> rfl
  · intro h; rw [h]; rfl
  · intro h; subst h; exact ⟨rfl, rfl⟩
  · intro v hv
    subst hv
    refine ⟨"$(\x27#" ++ gen_input_elt_id name ++ "\x27).timepicker(\x27",
            "\x27, \x27" ++ v ++ "\x27);", ?_⟩
    show time_code _ _ ++ [_] = time_code _ _ ++ [_]
    congr 1
    congr 1
    apply String.ext
    simp [String.data_append]
  · simp [datetime_to_parent, idiv, Node.childrenOf,
      date_time_elt_id typeName name a none]
  · cases inst <;> rfl
  · intro h; rw [h]; rfl
  · intro h; subst h; exact ⟨rfl, rfl⟩
  · intro v hv
    subst hv
    refine ⟨"$(\x27#" ++ gen_input_elt_id name ++ "\x27).datetimepicker(\x27",
            "\x27, \x27" ++ v ++ "\x27);", ?_⟩
    show datetime_code _ _ ++ [_] = datetime_code _ _ ++ [_]
    congr 1
    congr 1
    apply String.ext
    simp [String.data_append]

/-- Concrete instantiation of `C8_picker_scripts` (hypotheses discharged
at a Date/Time/DateTime field with no format and a set instance value). -/
theorem C8_picker_scripts_witness :
    date_format (({} : ClsAttrs)).format = "yy-mm-dd" ∧
    (∃ pre post,
      date_script_lines (gen_input_elt_id "d") (date_format (({} : ClsAttrs)).format)
          (some "2020-01-02")
        = date_code (gen_input_elt_id "d") (date_format (({} : ClsAttrs)).format)
            ++ [pre ++ ("setDate" ++ post)]) ∧
    (time_script_lines (gen_input_elt_id "d") (time_format (({} : ClsAttrs)).format) none
        = time_code (gen_input_elt_id "d") (time_format (({} : ClsAttrs)).format) ∧
     (time_code (gen_input_elt_id "d") (time_format (({} : ClsAttrs)).format)).length = 2) := by
  refine ⟨?_, ?_, ?_⟩
  · exact (C8_picker_scripts "lbl" "Date" "d" ({} : ClsAttrs) (some "2020-01-02")).2.2.1 rfl
  · exact (C8_picker_scripts "lbl" "Date" "d" ({} : ClsAttrs)
      (some "2020-01-02")).2.2.2.2.1 "2020-01-02" rfl
  · exact (C8_picker_scripts "lbl" "Time" "d" ({} : ClsAttrs) none).2.2.2.2.2.2.2.2.1 rfl

/-! ## Array renderers -/

def array_btn_add (key : String) : Node :=
  .elem "button" [("class", key ++ "_btn_add"), ("type", "button")] [.text "+"]

def array_btn_del (key : String) : Node :=
  .elem "button" [("class", key ++ "_btn_del"), ("type", "button")] [.text "-"]

/-- `_gen_array_js`: the add/remove manipulation script, with the field
key interpolated for `%(field_name)s`. -/
def gen_array_js (key : String) : Node :=
  .elem "script" [("type", "text/javascript")]
    [.text ("\n$(function() \x7b\n    var field_name = \".\" + \"" ++ key
      ++ "\";\n\n    var add = function() \x7b\n        var f = $($(field_name)[0]).clone();\n        f.appendTo($(field_name).parent());\n        f.find(\"." ++ key
      ++ "_btn_add\").click(add);\n        f.find(\"." ++ key
      ++ "_btn_del\").click(del);\n        return false;\n    \x7d;\n\n    var del = function(event) \x7b\n        if($(\x27#" ++ key
      ++ "_container\x27).find(\x27." ++ key
      ++ "\x27).length > 1)\x7b\n            $(this).parent().remove();\n        \x7d\n        else\x7b\n            $(this).parent().children().val(\"\")\n        \x7d\n       event.preventDefault();\n    \x7d;\n\n    $(\"." ++ key
      ++ "_btn_add\").click(add);\n    $(\"." ++ key
      ++ "_btn_del\").click(del);\n\x7d);")]

/-- The item loop of `HtmlForm._pull_to_parent`.  `rc` stands for the
recursive `self.to_parent` call on one member (opaque at this level); it
receives the member value and the child key `'%s[%09d]' % (key, i)`.  When
`no_write` is unset, the add and delete buttons are written inside the item
div after the member. -/
def pullItems {A : Type} (rc : A -> String -> Node) (key : String) (noWrite : Bool) :
    Nat -> List A -> List Node
  | _, [] => []
  | i, v :: rest =>
      Node.elem "div" [("class", key)]
        ([rc v (arrKey key (i : Int))] ++
          (if noWrite then [] else [array_btn_add key, array_btn_del key]))
        :: pullItems rc key noWrite (i + 1) rest

/-- `HtmlForm._pull_to_parent`: `None` becomes the empty sequence, items
are enumerated from 0, and the manipulation script is appended once after
the loop when `no_write` is unset. -/
def pull_to_parent {A : Type} (rc : A -> String -> Node) (name : String)
    (noWrite : Bool) (inst : Option (List A)) : List Node :=
  let key := selsafe name
  let vals := match inst with | none => [] | some l => l
  pullItems rc key noWrite 0 vals ++ (if noWrite then [] else [gen_array_js key])

/-- The loop body of `HtmlForm._push_to_parent`, one iteration per pushed
element.  The source updates the index with `i += 0`, so it stays at its
initial value; the model keeps the `i + 0` faithfully.  The add/delete
buttons sit inside the generator-protocol `except Break` branch and the
trailing `_gen_array_js` call sits after `while True:` (unreachable), so
neither is modelled. -/
def pushItems {A : Type} (rc : A -> String -> Node) (key : String) :
    Int -> List A -> List Node
  | _, [] => []
  | i, v :: rest =>
      Node.elem "div" [("class", key)] [rc v (arrKey key (i + 0))]
        :: pushItems rc key (i + 0) rest

/-- `HtmlForm._push_to_parent` with `i = -1` initially. -/
def push_to_parent {A : Type} (rc : A -> String -> Node) (name : String)
    (vals : List A) : List Node :=
  pushItems rc (selsafe name) (-1) vals

/-- The array instance as `array_to_parent` sees it: a `PushBase` stream,
an in-memory sequence, or `None`. -/
inductive ArrInst (A : Type) where
  | pushI (vals : List A)
  | memI (vals : List A)
  | noneI

/-- `HtmlForm.array_to_parent`. -/
def array_to_parent {A : Type} (rc : A -> String -> Node) (name : String)
    (noWrite : Bool) (inst : ArrInst A) : Node :=
  let key := selsafe name
  .elem "div" [("id", key ++ "_container"), ("class", "array")]
    (match inst with
     | .pushI vals => push_to_parent rc name vals
     | .memI vals => pull_to_parent rc name noWrite (some vals)
     | .noneI => pull_to_parent rc name noWrite none)

/-! ## Claims C2, C5, C6, C10 -/

/-- The claim `C5`: `array_to_parent` always wraps its output in a div with
id `selsafe(name) + "_container"` and class `array`, and delegates to the
push renderer exactly for `PushBase` instances, to the pull renderer
otherwise (including `None`). -/
theorem C5_array_dispatch {A : Type} (rc : A -> String -> Node) (name : String)
    (noWrite : Bool) (inst : ArrInst A) :
    (array_to_parent rc name noWrite inst).tagOf = "div" /\
    (array_to_parent rc name noWrite inst).attr "id"
      = some (selsafe name ++ "_container") /\
    (array_to_parent rc name noWrite inst).attr "class" = some "array" /\
    (array_to_parent rc name noWrite inst).childrenOf
      = (match inst with
         | .pushI vals => push_to_parent rc name vals
         | .memI vals => pull_to_parent rc name noWrite (some vals)
         | .noneI => pull_to_parent rc name noWrite none) := by
  refine ⟨rfl, ?_, ?_, by cases inst <;> rfl⟩ <;>
    simp [array_to_parent, Node.attr, Node.attrsOf, getAttr]

/-- Evaluation of the push renderer at a two-element stream: because of the
`i += 0` slip the index stays `-1`, so both elements receive the same key
`x[-00000001]` instead of `x[000000000]`, `x[000000001]` — the push path of
claim C2 is a code bug. -/
theorem C2_push_index_bug :
    push_to_parent (fun (v : String) k => Node.text (v ++ "@" ++ k)) "x" ["p", "q"]
      = [Node.elem "div" [("class", "x")] [Node.text "p@x[-00000001]"],
         Node.elem "div" [("class", "x")] [Node.text "q@x[-00000001]"]] := rfl

/-- A node is an item div for key `key`. -/
def isItemDiv (key : String) (n : Node) : Bool :=
  (n.tagOf == "div") && (n.attr "class" == some key)

theorem pullItems_length {A : Type} (rc : A -> String -> Node) (key : String)
    (noWrite : Bool) : forall (xs : List A) (base : Nat),
    (pullItems rc key noWrite base xs).length = xs.length := by
  intro xs
  induction xs with
  | nil => intro base; rfl
  | cons v rest ih => intro base; simp [pullItems, ih]

theorem pullItems_getElem {A : Type} (rc : A -> String -> Node) (key : String)
    (noWrite : Bool) : forall (xs : List A) (base i : Nat), (h : i < xs.length) ->
    (pullItems rc key noWrite base xs)[i]?
      = some (Node.elem "div" [("class", key)]
          ([rc xs[i] (arrKey key ((base + i : Nat) : Int))] ++
            (if noWrite then [] else [array_btn_add key, array_btn_del key]))) := by
  intro xs
  induction xs with
  | nil => intro base i h; simp at h
  | cons v rest ih =>
      intro base i h
      cases i with
      | zero => simp [pullItems]
      | succ j =>
          have hj : j < rest.length := by simpa using h
          have := ih (base + 1) j hj
          simp only [pullItems, List.getElem?_cons_succ, this]
          have harith : base + 1 + j = base + (j + 1) := by omega
          simp [harith]

theorem pullItems_filter {A : Type} (rc : A -> String -> Node) (key : String)
    (noWrite : Bool) : forall (xs : List A) (base : Nat),
    (pullItems rc key noWrite base xs).filter (isItemDiv key) =
      pullItems rc key noWrite base xs := by
  intro xs
  induction xs with
  | nil => intro base; rfl
  | cons v rest ih =>
      intro base
      simp [pullItems, List.filter, isItemDiv, Node.tagOf, Node.attr,
        Node.attrsOf, getAttr, ih]

/-- The claim `C6`: the pull renderer emits exactly `n` item divs of class
`selsafe(name)`, the `i`-th rendered under the zero-padded key
`selsafe(name)[i]` with all keys distinct; when `no_write` is unset every
item div also carries the add and delete buttons and a single
array-manipulation script follows all items. -/
theorem C6_pull_renderer {A : Type} (rc : A -> String -> Node) (name : String)
    (noWrite : Bool) (xs : List A) :
    ((pull_to_parent rc name noWrite (some xs)).length
        = xs.length + (if noWrite then 0 else 1)) /\
    (forall i, (h : i < xs.length) -> (pull_to_parent rc name noWrite (some xs))[i]?
        = some (Node.elem "div" [("class", selsafe name)]
            ([rc xs[i] (arrKey (selsafe name) (i : Int))] ++
              (if noWrite then [] else
                [array_btn_add (selsafe name), array_btn_del (selsafe name)])))) /\
    (forall i j : Nat, i ≠ j ->
        arrKey (selsafe name) (i : Int) ≠ arrKey (selsafe name) (j : Int)) /\
    (noWrite = false -> (pull_to_parent rc name noWrite (some xs))[xs.length]?
        = some (gen_array_js (selsafe name))) /\
    (((pull_to_parent rc name noWrite (some xs)).filter
        (isItemDiv (selsafe name))).length = xs.length) := by
  refine ⟨?_, ?_, ?_, ?_, ?_⟩
  · show (pullItems rc (selsafe name) noWrite 0 xs ++ _).length = _
    cases noWrite <;> simp [pullItems_length]
  · intro i h
    show (pullItems rc (selsafe name) noWrite 0 xs ++ _)[i]? = _
    rw [List.getElem?_append_left (by rw [pullItems_length]; exact h)]
    have := pullItems_getElem rc (selsafe name) noWrite xs 0 i h
    simpa using this
  · intro i j hne heq
    exact hne (arrKey_nat_inj heq)
  · intro hnw
    subst hnw
    show (pullItems rc (selsafe name) false 0 xs ++ [gen_array_js (selsafe name)])[xs.length]? = _
    rw [List.getElem?_append_right (by rw [pullItems_length])]
    simp [pullItems_length]
  · show ((pullItems rc (selsafe name) noWrite 0 xs ++ _).filter _).length = _
    cases noWrite with
    | false =>
        simp only [List.filter_append, pullItems_filter]
        have hjs : (([gen_array_js (selsafe name)]).filter
            (isItemDiv (selsafe name))) = [] := by
          simp [gen_array_js, isItemDiv, Node.tagOf, List.filter]
        simp [hjs, pullItems_length]
    | true =>
        simp only [List.filter_append, pullItems_filter]
        simp [pullItems_length]

/-- Concrete instantiation of `C6_pull_renderer` at a two-element list
(hypotheses `1 < 2`, `0 ≠ 1` and `noWrite = false` discharged). -/
theorem C6_pull_renderer_witness :
    ((pull_to_parent (fun (_ : Nat) k => Node.text k) "a.b" false (some [3, 4]))[1]?
      = some (Node.elem "div" [("class", "a__b")]
          [Node.text "a__b[000000001]", array_btn_add "a__b", array_btn_del "a__b"])) /\
    (arrKey "a__b" ((0 : Nat) : Int) ≠ arrKey "a__b" ((1 : Nat) : Int)) /\
    ((pull_to_parent (fun (_ : Nat) k => Node.text k) "a.b" false (some [3, 4]))[2]?
      = some (gen_array_js "a__b")) := by
  have h := C6_pull_renderer (fun (_ : Nat) k => Node.text k) "a.b" false [3, 4]
  refine ⟨(h.2.1 1 (by decide)).trans rfl, ?_, (h.2.2.2.1 rfl).trans rfl⟩
  exact h.2.2.1 0 1 (by decide)

/-- The claim `C10`: the pull renderer treats `inst = None` exactly like an
empty sequence: no items, and the manipulation script is still written when
`no_write` is unset. -/
theorem C10_pull_none_empty {A : Type} (rc : A -> String -> Node) (name : String)
    (noWrite : Bool) :
    pull_to_parent rc name noWrite none
        = pull_to_parent rc name noWrite (some ([] : List A)) /\
    pull_to_parent rc name noWrite none
        = (if noWrite then [] else [gen_array_js (selsafe name)]) := by
  constructor <;> cases noWrite <;> rfl

/-! ## The tab/fieldset grouping loop of `complex_model_to_parent`

Tab and Fieldset annotation objects are referenced by an identifier
(`Nat`): Python's `is` comparison between annotation objects is equality of
references, not of contents.  The environment maps references to the
objects.  The sort key `_Tform_key` is embedded with Python 2 comparison
semantics — `None` sorts before any tuple — which is what makes the mixed
annotated/unannotated sort total; `WithBot` places `⊥` (None) first and
`×ₗ` gives tuple lexicographic order. -/

structure TabObj where
  index : Option Int
  htmlid : String
  attrib : List (String × String)

structure FsetObj where
  tag : String
  attrib : List (String × String)
  index : Option Int
  htmlid : String

/-- One field of the flat type info: its name `k`, and the `exc`, `tab`,
`fieldset` and `order` attributes of its type `v`. -/
structure Field where
  name : String
  exc : Bool
  tab : Option Nat
  fieldset : Option Nat
  order : Option Int

structure Env where
  tabs : Nat -> TabObj
  fsets : Nat -> FsetObj

abbrev SubKey := WithBot ((WithBot Int) ×ₗ String)

abbrev FormKey := SubKey ×ₗ SubKey ×ₗ (WithBot Int) ×ₗ String

def optKey (o : Option Int) : WithBot Int :=
  match o with
  | none => ⊥
  | some i => (i : WithBot Int)

def tabKey (env : Env) (f : Field) : SubKey :=
  match f.tab with
  | none => ⊥
  | some t => ((toLex (optKey (env.tabs t).index, (env.tabs t).htmlid) :
      (WithBot Int) ×ₗ String) : SubKey)

def fsetKey (env : Env) (f : Field) : SubKey :=
  match f.fieldset with
  | none => ⊥
  | some fs => ((toLex (optKey (env.fsets fs).index, (env.fsets fs).htmlid) :
      (WithBot Int) ×ₗ String) : SubKey)

/-- `_Tform_key`: `((tab.index, tab.htmlid) or None, (fieldset.index,
fieldset.htmlid) or None, order, k)`. -/
def form_key (env : Env) (f : Field) : FormKey :=
  toLex (tabKey env f, toLex (fsetKey env f, toLex (optKey f.order, f.name)))

def keyLE (env : Env) (a b : Field) : Prop := form_key env a ≤ form_key env b

instance keyLE_dec (env : Env) : DecidableRel (keyLE env) := fun a b =>
  inferInstanceAs (Decidable (form_key env a ≤ form_key env b))

/-- `sorted(fti.items(), key=_Tform_key(self))`: Python's sort is stable,
and a stable sort under a total preorder is unique, so the stable
`insertionSort` gives the same list. -/
def sortFields (env : Env) (fields : List Field) : List Field :=
  List.insertionSort (keyLE env) fields

/-- Events on the streaming parent writer: entering a `parent.element`
context, exiting it, or a `parent.write`. -/
inductive Ev where
  | enter (tag : String) (attrs : List (String × String))
  | exitE
  | write (s : String)

/-- Loop state: `prev_fset`, `fset_ctx` (open or not), `prev_tab`,
`tab_ctx`, `tabview_ctx`, and the `SOME_COUNTER` global. -/
structure CST where
  prevFset : Option Nat
  fsetOpen : Bool
  prevTab : Option Nat
  tabOpen : Bool
  tabviewOpen : Bool
  counter : Nat

def initCST (c0 : Nat) : CST :=
  { prevFset := none, fsetOpen := false, prevTab := none, tabOpen := false,
    tabviewOpen := false, counter := c0 }

/-- `self.hier_delim.join((name, k))` guarded by `len(name) > 0`. -/
def child_key (name k : String) : String :=
  if name ≠ "" then name ++ "." ++ k else k

/-- The tab-transition block (`if not (tab is prev_tab): ...`).  Accessing
`tab.htmlid` when the new tab is `None` is an `AttributeError`. -/
def tabTrans (env : Env) (st : CST) (f : Field) : Except String (CST × List Ev) :=
  if f.tab = st.prevTab then .ok (st, [])
  else
    let e1 := if st.fsetOpen then [Ev.exitE] else []
    let e2 := if st.tabOpen then [Ev.exitE] else []
    let p := if st.prevTab = none then
        ({ st with fsetOpen := false, prevFset := none,
                   tabviewOpen := true, counter := st.counter + 1 },
         [Ev.enter "div" [("id", "tabview" ++ toString st.counter)],
          Ev.write "tab-headers"])
      else
        ({ st with fsetOpen := false, prevFset := none }, ([] : List Ev))
    match f.tab with
    | none => .error "AttributeError: NoneType object has no attribute htmlid"
    | some t =>
        .ok ({ p.1 with tabOpen := true, prevTab := some t },
             e1 ++ e2 ++ p.2 ++
               [Ev.enter "div" (("id", (env.tabs t).htmlid) :: (env.tabs t).attrib)])

/-- The fieldset-transition block (`if not (fset is prev_fset): ...`).
Accessing `fset.tag` when the new fieldset is `None` is an
`AttributeError`. -/
def fsetTrans (env : Env) (st : CST) (f : Field) : Except String (CST × List Ev) :=
  if f.fieldset = st.prevFset then .ok (st, [])
  else
    let e1 := if st.fsetOpen then [Ev.exitE] else []
    match f.fieldset with
    | none => .error "AttributeError: NoneType object has no attribute tag"
    | some fs =>
        .ok ({ st with fsetOpen := true, prevFset := some fs },
             e1 ++ [Ev.enter (env.fsets fs).tag (env.fsets fs).attrib,
                    Ev.write "legend"])

/-- One iteration of the field loop: skip excluded fields, run the tab and
fieldset transitions, then render the child under its hierarchical key. -/
def stepField (env : Env) (name : String) (st : CST) (f : Field) :
    Except String (CST × List Ev) :=
  if f.exc then .ok (st, [])
  else
    match tabTrans env st f with
    | .error e => .error e
    | .ok (st1, e1) =>
        match fsetTrans env st1 f with
        | .error e => .error e
        | .ok (st2, e2) =>
            .ok (st2, e1 ++ e2 ++ [Ev.write ("child:" ++ child_key name f.name)])

def runFields (env : Env) (name : String) :
    CST -> List Field -> Except String (CST × List Ev)
  | st, [] => .ok (st, [])
  | st, f :: fs =>
      match stepField env name st f with
      | .error e => .error e
      | .ok (st1, e1) =>
          match runFields env name st1 fs with
          | .error e => .error e
          | .ok (st2, e2) => .ok (st2, e1 ++ e2)

/-- The closing block after the loop: exit the open fieldset, the open tab
and the tabview (writing the tabs activation script after it). -/
def closeEvs (st : CST) : List Ev :=
  (if st.fsetOpen then [Ev.exitE] else []) ++
  (if st.tabOpen then [Ev.exitE] else []) ++
  (if st.tabviewOpen then [Ev.exitE, Ev.write "tabs-script"] else [])

/-- `complex_model_to_parent`: name normalization, the `with
parent.element('fieldset')` wrapper with its legend, the sorted field loop,
and the closing block.  The recursive child render appears as a single
`write` event; claim C4 is about the contexts this coroutine itself
enters. -/
def complex_model_to_parent (env : Env) (c0 : Nat) (typeName nameArg : String)
    (fields : List Field) : Except String (List Ev) :=
  let name := if nameArg = typeName then "" else nameArg
  match runFields env name (initCST c0) (sortFields env fields) with
  | .error e => .error e
  | .ok (st, evs) =>
      .ok ([Ev.enter "fieldset" [], Ev.write "legend"] ++ evs ++ closeEvs st
            ++ [Ev.exitE])

/-! ## Claim C1: the grouping loop never dereferences a missing annotation

Key facts about the sorted order: once a field with a tab annotation has
been rendered, every later field also has one (`None` tab keys sort
first); within an unchanged tab object, once a field with a fieldset
annotation has been rendered every later field of that tab also has one. -/

theorem keyLE_tab_not_none (env : Env) {f g : Field} (hle : keyLE env f g)
    {t : Nat} (hft : f.tab = some t) : g.tab ≠ none := by
  intro hgt
  have hf : tabKey env f = ((toLex (optKey (env.tabs t).index, (env.tabs t).htmlid) :
      (WithBot Int) ×ₗ String) : SubKey) := by
    unfold tabKey
    rw [hft]
  have hg : tabKey env g = ⊥ := by
    unfold tabKey
    rw [hgt]
  unfold keyLE form_key at hle
  rw [Prod.Lex.le_iff] at hle
  rcases hle with hlt | ⟨heq, _⟩
  · rw [hg] at hlt
    exact not_lt_bot hlt
  · rw [hf, hg] at heq
    exact WithBot.coe_ne_bot heq

theorem keyLE_fset_not_none (env : Env) {f g : Field} (hle : keyLE env f g)
    (htab : g.tab = f.tab) {fv : Nat} (hff : f.fieldset = some fv) :
    g.fieldset ≠ none := by
  intro hgf
  have htk : tabKey env g = tabKey env f := by
    unfold tabKey
    rw [htab]
  have hfkf : fsetKey env f = ((toLex (optKey (env.fsets fv).index,
      (env.fsets fv).htmlid) : (WithBot Int) ×ₗ String) : SubKey) := by
    unfold fsetKey
    rw [hff]
  have hfkg : fsetKey env g = ⊥ := by
    unfold fsetKey
    rw [hgf]
  unfold keyLE form_key at hle
  rw [Prod.Lex.le_iff] at hle
  rcases hle with hlt | ⟨_, hrest⟩
  · rw [htk] at hlt
    exact lt_irrefl _ hlt
  · rw [Prod.Lex.le_iff] at hrest
    rcases hrest with hlt2 | ⟨heq2, _⟩
    · rw [hfkg] at hlt2
      exact not_lt_bot hlt2
    · rw [hfkf, hfkg] at heq2
      exact WithBot.coe_ne_bot heq2

theorem tabTrans_ok_of (env : Env) (st : CST) (f : Field)
    (h : f.tab ≠ st.prevTab → f.tab ≠ none) :
    ∃ r, tabTrans env st f = .ok r := by
  by_cases hteq : f.tab = st.prevTab
  · exact ⟨(st, []), by simp [tabTrans, hteq]⟩
  · obtain ⟨t, ht⟩ := Option.ne_none_iff_exists'.mp (h hteq)
    rw [ht] at hteq
    simp only [tabTrans, ht, hteq, if_false]
    exact ⟨_, rfl⟩

theorem tabTrans_ok_facts (env : Env) (st : CST) (f : Field) (st1 : CST)
    (e1 : List Ev) (h : tabTrans env st f = .ok (st1, e1)) :
    st1.prevTab = f.tab ∧
    (st1.prevFset = st.prevFset ∧ f.tab = st.prevTab ∨ st1.prevFset = none) ∧
    (f.tab = st.prevTab → st1 = st) := by
  by_cases hteq : f.tab = st.prevTab
  · rw [show tabTrans env st f = .ok (st, []) from by simp [tabTrans, hteq]] at h
    simp only [Except.ok.injEq, Prod.mk.injEq] at h
    obtain ⟨h1, _⟩ := h
    subst h1
    exact ⟨hteq.symm, Or.inl ⟨rfl, hteq⟩, fun _ => rfl⟩
  · cases ht : f.tab with
    | none =>
        rw [ht] at hteq
        simp [tabTrans, ht, hteq] at h
    | some t =>
        rw [ht] at hteq
        simp only [tabTrans, ht, hteq, if_false] at h
        simp only [Except.ok.injEq, Prod.mk.injEq] at h
        obtain ⟨h1, _⟩ := h
        subst h1
        refine ⟨by simp [ht], Or.inr ?_, fun hc => absurd hc hteq⟩
        by_cases hpn : st.prevTab = none <;> simp [hpn]

theorem fsetTrans_ok_of (env : Env) (st : CST) (f : Field)
    (h : f.fieldset = none → st.prevFset = none) :
    ∃ r, fsetTrans env st f = .ok r := by
  by_cases hfeq : f.fieldset = st.prevFset
  · exact ⟨(st, []), by simp [fsetTrans, hfeq]⟩
  · cases hfv : f.fieldset with
    | none => exact absurd (hfv.trans (h hfv).symm) hfeq
    | some fv =>
        rw [hfv] at hfeq
        simp only [fsetTrans, hfv, hfeq, if_false]
        exact ⟨_, rfl⟩

theorem fsetTrans_ok_facts (env : Env) (st : CST) (f : Field) (st2 : CST)
    (e2 : List Ev) (h : fsetTrans env st f = .ok (st2, e2)) :
    st2.prevFset = f.fieldset ∧ st2.prevTab = st.prevTab ∧
    st2.tabviewOpen = st.tabviewOpen := by
  by_cases hfeq : f.fieldset = st.prevFset
  · rw [show fsetTrans env st f = .ok (st, []) from by simp [fsetTrans, hfeq]] at h
    simp only [Except.ok.injEq, Prod.mk.injEq] at h
    obtain ⟨h1, _⟩ := h
    subst h1
    exact ⟨hfeq.symm, rfl, rfl⟩
  · cases hfv : f.fieldset with
    | none =>
        rw [hfv] at hfeq
        simp [fsetTrans, hfv, hfeq] at h
    | some fv =>
        rw [hfv] at hfeq
        simp only [fsetTrans, hfv, hfeq, if_false] at h
        simp only [Except.ok.injEq, Prod.mk.injEq] at h
        obtain ⟨h1, _⟩ := h
        subst h1
        exact ⟨by simp [hfv], rfl, rfl⟩

theorem stepField_ok_spec (env : Env) (name : String) (st : CST) (f : Field)
    (hexc : f.exc = false)
    (htabn : f.tab ≠ st.prevTab → f.tab ≠ none)
    (hfn : f.fieldset = none → f.tab = st.prevTab → st.prevFset = none) :
    ∃ st2 e2, stepField env name st f = .ok (st2, e2) ∧
      st2.prevTab = f.tab ∧ st2.prevFset = f.fieldset := by
  obtain ⟨⟨st1, e1⟩, htt⟩ := tabTrans_ok_of env st f htabn
  obtain ⟨hpt1, hpf1, _⟩ := tabTrans_ok_facts env st f st1 e1 htt
  have hfs_ok : ∃ r, fsetTrans env st1 f = .ok r := by
    apply fsetTrans_ok_of
    intro hnone
    rcases hpf1 with ⟨heq, htabeq⟩ | hnone1
    · rw [heq]
      exact hfn hnone htabeq
    · exact hnone1
  obtain ⟨⟨st2, e2⟩, hft⟩ := hfs_ok
  obtain ⟨hpf2, hpt2, _⟩ := fsetTrans_ok_facts env st1 f st2 e2 hft
  refine ⟨st2, e1 ++ e2 ++ [Ev.write ("child:" ++ child_key name f.name)], ?_, ?_, hpf2⟩
  · simp [stepField, hexc, htt, hft]
  · rw [hpt2, hpt1]

theorem runFields_ok (env : Env) (name : String) :
    ∀ (fs : List Field) (st : CST),
      List.Sorted (keyLE env) fs →
      (st.prevTab ≠ none → ∀ f ∈ fs, f.exc = false → f.tab ≠ none) →
      (st.prevFset ≠ none → ∀ f ∈ fs, f.exc = false → f.tab = st.prevTab →
          f.fieldset ≠ none) →
      ∃ r, runFields env name st fs = .ok r := by
  intro fs
  induction fs with
  | nil => intro st _ _ _; exact ⟨_, rfl⟩
  | cons f fs ih =>
      intro st hsorted h1 h2
      have hsorted' : List.Sorted (keyLE env) fs := hsorted.of_cons
      have hpair : ∀ g ∈ fs, keyLE env f g := List.rel_of_sorted_cons hsorted
      cases hexc : f.exc with
      | true =>
          have hstep : stepField env name st f = .ok (st, []) := by
            simp [stepField, hexc]
          obtain ⟨⟨rs, re⟩, hr⟩ := ih st hsorted'
            (fun h g hg hge => h1 h g (List.mem_cons_of_mem f hg) hge)
            (fun h g hg hge hgt => h2 h g (List.mem_cons_of_mem f hg) hge hgt)
          exact ⟨(rs, re), by simp [runFields, hstep, hr]⟩
      | false =>
          obtain ⟨st2, e2, hstep, hpt, hpf⟩ := stepField_ok_spec env name st f hexc
            (by
              intro hne
              by_cases hpn : st.prevTab = none
              · intro hfn
                exact hne (hfn.trans hpn.symm)
              · exact h1 hpn f (List.mem_cons_self f fs) hexc)
            (by
              intro hfnone htabeq
              by_cases hpf0 : st.prevFset = none
              · exact hpf0
              · exact absurd hfnone (h2 hpf0 f (List.mem_cons_self f fs) hexc htabeq))
          obtain ⟨⟨rs, re⟩, hr⟩ := ih st2 hsorted'
            (by
              intro hne g hg hge
              rw [hpt] at hne
              obtain ⟨t, ht⟩ := Option.ne_none_iff_exists'.mp hne
              exact keyLE_tab_not_none env (hpair g hg) ht)
            (by
              intro hne g hg hge hgt
              rw [hpf] at hne
              obtain ⟨fv, hfv⟩ := Option.ne_none_iff_exists'.mp hne
              rw [hpt] at hgt
              exact keyLE_fset_not_none env (hpair g hg) hgt hfv)
          exact ⟨(rs, e2 ++ re), by simp [runFields, hstep, hr]⟩

/-- The claim `C1`: for every model — every combination of tab and fieldset
annotations on the fields, annotated and unannotated mixed freely — the
grouping loop of `complex_model_to_parent` completes without raising: under
the `_Tform_key` sort order (Python 2 semantics), the `tab.htmlid` and
`fset.tag` accesses never hit `None`. -/
theorem C1_complex_render_no_error (env : Env) (c0 : Nat)
    (typeName nameArg : String) (fields : List Field) :
    ∃ evs, complex_model_to_parent env c0 typeName nameArg fields = .ok evs := by
  have hsorted : List.Sorted (keyLE env) (sortFields env fields) := by
    haveI htot : IsTotal Field (keyLE env) := ⟨fun a b => le_total _ _⟩
    haveI htrans : IsTrans Field (keyLE env) := ⟨fun a b c hab hbc => le_trans hab hbc⟩
    exact List.sorted_insertionSort (keyLE env) fields
  obtain ⟨⟨stF, evsF⟩, hr⟩ := runFields_ok env
      (if nameArg = typeName then "" else nameArg) (sortFields env fields)
      (initCST c0) hsorted (fun h => absurd rfl h) (fun h => absurd rfl h)
  exact ⟨Ev.enter "fieldset" [] :: Ev.write "legend" ::
    (evsF ++ (closeEvs stF ++ [Ev.exitE])), by simp [complex_model_to_parent, hr]⟩

/-! ## Claim C4: balanced nesting of the grouping contexts -/

/-- Number of grouping contexts currently open on the parent writer. -/
def openCnt (st : CST) : Nat :=
  (if st.fsetOpen then 1 else 0) + (if st.tabOpen then 1 else 0) +
    (if st.tabviewOpen then 1 else 0)

/-- Depth checker: `none` when an exit occurs at depth zero, otherwise the
final depth. -/
def chkBal : Nat -> List Ev -> Option Nat
  | d, [] => some d
  | d, Ev.enter _ _ :: es => chkBal (d + 1) es
  | d, Ev.exitE :: es => if d = 0 then none else chkBal (d - 1) es
  | d, Ev.write _ :: es => chkBal d es

theorem chkBal_append : forall (a b : List Ev) (d : Nat),
    chkBal d (a ++ b) = (chkBal d a).bind (fun e => chkBal e b) := by
  intro a
  induction a with
  | nil => intro b d; rfl
  | cons e rest ih =>
      intro b d
      cases e with
      | enter t at_ => simp [chkBal, ih]
      | exitE =>
          by_cases hd : d = 0 <;> simp [chkBal, hd, ih]
      | write u => simp [chkBal, ih]

theorem tabTrans_bal (env : Env) (st : CST) (f : Field) (st1 : CST)
    (e1 : List Ev) (h : tabTrans env st f = .ok (st1, e1))
    (hinv : st.prevTab = none → st.tabviewOpen = false) (d : Nat) :
    chkBal (d + openCnt st) e1 = some (d + openCnt st1) := by
  by_cases hteq : f.tab = st.prevTab
  · rw [show tabTrans env st f = .ok (st, []) from by simp [tabTrans, hteq]] at h
    simp only [Except.ok.injEq, Prod.mk.injEq] at h
    obtain ⟨h1, h2⟩ := h
    subst h1
    subst h2
    rfl
  · cases ht : f.tab with
    | none =>
        rw [ht] at hteq
        simp [tabTrans, ht, hteq] at h
    | some t =>
        rw [ht] at hteq
        simp only [tabTrans, ht, hteq, if_false] at h
        simp only [Except.ok.injEq, Prod.mk.injEq] at h
        obtain ⟨h1, h2⟩ := h
        subst h1
        subst h2
        obtain ⟨pf, fo, pt, to_, tv, c⟩ := st
        cases pt with
        | none =>
            have htv : tv = false := hinv rfl
            subst htv
            cases fo <;> cases to_ <;> rfl
        | some pt0 =>
            cases fo <;> cases to_ <;> cases tv <;> rfl

theorem fsetTrans_bal (env : Env) (st : CST) (f : Field) (st2 : CST)
    (e2 : List Ev) (h : fsetTrans env st f = .ok (st2, e2)) (d : Nat) :
    chkBal (d + openCnt st) e2 = some (d + openCnt st2) := by
  by_cases hfeq : f.fieldset = st.prevFset
  · rw [show fsetTrans env st f = .ok (st, []) from by simp [fsetTrans, hfeq]] at h
    simp only [Except.ok.injEq, Prod.mk.injEq] at h
    obtain ⟨h1, h2⟩ := h
    subst h1
    subst h2
    rfl
  · cases hfv : f.fieldset with
    | none =>
        rw [hfv] at hfeq
        simp [fsetTrans, hfv, hfeq] at h
    | some fv =>
        rw [hfv] at hfeq
        simp only [fsetTrans, hfv, hfeq, if_false] at h
        simp only [Except.ok.injEq, Prod.mk.injEq] at h
        obtain ⟨h1, h2⟩ := h
        subst h1
        subst h2
        obtain ⟨pf, fo, pt, to_, tv, c⟩ := st
        cases fo <;> cases to_ <;> cases tv <;> rfl

theorem stepField_inv (env : Env) (name : String) (st : CST) (f : Field)
    (st2 : CST) (e : List Ev) (h : stepField env name st f = .ok (st2, e))
    (hinv : st.prevTab = none → st.tabviewOpen = false) :
    st2.prevTab = none → st2.tabviewOpen = false := by
  by_cases hexc : f.exc = true
  · rw [show stepField env name st f = .ok (st, []) from by simp [stepField, hexc]] at h
    simp only [Except.ok.injEq, Prod.mk.injEq] at h
    obtain ⟨h1, _⟩ := h
    subst h1
    exact hinv
  · cases htt : tabTrans env st f with
    | error e0 => simp [stepField, hexc, htt] at h
    | ok r1 =>
        obtain ⟨st1, e1⟩ := r1
        cases hft : fsetTrans env st1 f with
        | error e0 => simp [stepField, hexc, htt, hft] at h
        | ok r2 =>
            obtain ⟨st2a, e2a⟩ := r2
            rw [show stepField env name st f
                = .ok (st2a, e1 ++ e2a ++ [Ev.write ("child:" ++ child_key name f.name)])
              from by simp [stepField, hexc, htt, hft]] at h
            simp only [Except.ok.injEq, Prod.mk.injEq] at h
            obtain ⟨h1, _⟩ := h
            subst h1
            obtain ⟨hpt1, hpf1, heqst⟩ := tabTrans_ok_facts env st f st1 e1 htt
            obtain ⟨hpf2, hpt2, htv2⟩ := fsetTrans_ok_facts env st1 f st2a e2a hft
            intro h2n
            by_cases hteq : f.tab = st.prevTab
            · have hst1 : st1 = st := heqst hteq
              rw [hpt2, hst1] at h2n
              rw [htv2, hst1]
              exact hinv h2n
            · cases ht : f.tab with
              | none =>
                  rw [ht] at hteq
                  simp [tabTrans, ht, hteq] at htt
              | some t =>
                  rw [hpt2, hpt1, ht] at h2n
                  exact Option.noConfusion h2n

theorem stepField_bal (env : Env) (name : String) (st : CST) (f : Field)
    (st2 : CST) (e : List Ev) (h : stepField env name st f = .ok (st2, e))
    (hinv : st.prevTab = none → st.tabviewOpen = false) (d : Nat) :
    chkBal (d + openCnt st) e = some (d + openCnt st2) := by
  by_cases hexc : f.exc = true
  · rw [show stepField env name st f = .ok (st, []) from by simp [stepField, hexc]] at h
    simp only [Except.ok.injEq, Prod.mk.injEq] at h
    obtain ⟨h1, h2⟩ := h
    subst h1
    subst h2
    rfl
  · cases htt : tabTrans env st f with
    | error e0 => simp [stepField, hexc, htt] at h
    | ok r1 =>
        obtain ⟨st1, e1⟩ := r1
        cases hft : fsetTrans env st1 f with
        | error e0 => simp [stepField, hexc, htt, hft] at h
        | ok r2 =>
            obtain ⟨st2a, e2a⟩ := r2
            rw [show stepField env name st f
                = .ok (st2a, e1 ++ e2a ++ [Ev.write ("child:" ++ child_key name f.name)])
              from by simp [stepField, hexc, htt, hft]] at h
            simp only [Except.ok.injEq, Prod.mk.injEq] at h
            obtain ⟨h1, h2⟩ := h
            subst h1
            subst h2
            simp [chkBal_append, chkBal,
              tabTrans_bal env st f st1 e1 htt hinv d,
              fsetTrans_bal env st1 f _ e2a hft d]

theorem runFields_bal (env : Env) (name : String) :
    forall (fs : List Field) (st stF : CST) (evs : List Ev),
      runFields env name st fs = .ok (stF, evs) ->
      (st.prevTab = none → st.tabviewOpen = false) ->
      forall d, chkBal (d + openCnt st) evs = some (d + openCnt stF) := by
  intro fs
  induction fs with
  | nil =>
      intro st stF evs h hinv d
      simp only [runFields, Except.ok.injEq, Prod.mk.injEq] at h
      obtain ⟨h1, h2⟩ := h
      subst h1
      subst h2
      rfl
  | cons f fs ih =>
      intro st stF evs h hinv d
      cases hstep : stepField env name st f with
      | error e0 => simp [runFields, hstep] at h
      | ok r1 =>
          obtain ⟨st1, e1⟩ := r1
          cases hrun : runFields env name st1 fs with
          | error e0 => simp [runFields, hstep, hrun] at h
          | ok r2 =>
              obtain ⟨st2, e2⟩ := r2
              rw [show runFields env name st (f :: fs) = .ok (st2, e1 ++ e2)
                from by simp [runFields, hstep, hrun]] at h
              simp only [Except.ok.injEq, Prod.mk.injEq] at h
              obtain ⟨h1, h2⟩ := h
              subst h1
              subst h2
              simp [chkBal_append,
                stepField_bal env name st f st1 e1 hstep hinv d,
                ih st1 _ e2 hrun (stepField_inv env name st f st1 e1 hstep hinv) d]

theorem closeEvs_bal (st : CST) (d : Nat) :
    chkBal (d + openCnt st) (closeEvs st) = some d := by
  obtain ⟨pf, fo, pt, to_, tv, c⟩ := st
  cases fo <;> cases to_ <;> cases tv <;> rfl

/-- The claim `C4`: whenever the grouping loop completes, the emitted event
sequence is well nested — every context entered on the parent writer
(tabview div, per-tab div, fieldset, and the outer fieldset wrapper) is
exited exactly once, never below depth zero, ending at depth zero. -/
theorem C4_balanced_nesting (env : Env) (c0 : Nat) (typeName nameArg : String)
    (fields : List Field) (evs : List Ev)
    (h : complex_model_to_parent env c0 typeName nameArg fields = .ok evs) :
    chkBal 0 evs = some 0 := by
  cases hrun : runFields env (if nameArg = typeName then "" else nameArg)
      (initCST c0) (sortFields env fields) with
  | error e0 => simp [complex_model_to_parent, hrun] at h
  | ok r =>
      obtain ⟨stF, evsF⟩ := r
      rw [show complex_model_to_parent env c0 typeName nameArg fields
          = .ok ([Ev.enter "fieldset" [], Ev.write "legend"] ++ evsF
              ++ closeEvs stF ++ [Ev.exitE])
        from by simp [complex_model_to_parent, hrun]] at h
      simp only [Except.ok.injEq] at h
      subst h
      have h1 : chkBal 1 evsF = some (1 + openCnt stF) := by
        simpa [initCST, openCnt] using
          runFields_bal env _ _ _ _ _ hrun (fun _ => rfl) 1
      have h2 := closeEvs_bal stF 1
      simp [chkBal_append, chkBal, h1, h2]

/-- Concrete instantiation of `C4_balanced_nesting` (the completion
hypothesis discharged by evaluation on a one-field model). -/
theorem C4_balanced_nesting_witness :
    chkBal 0 [Ev.enter "fieldset" [], Ev.write "legend",
      Ev.write "child:f1", Ev.exitE] = some 0 :=
  C4_balanced_nesting
    { tabs := fun _ => { index := none, htmlid := "", attrib := [] },
      fsets := fun _ => { tag := "fieldset", attrib := [], index := none,
                          htmlid := "" } }
    0 "T" "T"
    [{ name := "f1", exc := false, tab := none, fieldset := none, order := none }]
    _ rfl

/-! ## Claim C3: termination of the recursive render tree-walk

The schema is a map from type identifiers to field lists, so cyclic
schemas (a complex type containing a member of its own type, directly or
transitively) are representable.  Instances are finite trees.  The walk is
written with a fuel parameter; termination is the statement that a fuel
computable from the instance alone (its size) always suffices, for every
schema — cyclic or not. -/

inductive FieldTy where
  | prim
  | complexT (t : Nat)

structure Schema where
  fieldsOf : Nat -> List (String × FieldTy)

inductive Inst where
  | primV (s : String)
  | obj (fields : List (String × Inst))

mutual

def instSize : Inst -> Nat
  | .primV _ => 1
  | .obj fs => 1 + instFieldsSize fs

def instFieldsSize : List (String × Inst) -> Nat
  | [] => 0
  | (_, v) :: rest => instSize v + instFieldsSize rest

end

def instSizeO : Option Inst -> Nat
  | none => 0
  | some i => instSize i

def lookupF : List (String × Inst) -> String -> Option Inst
  | [], _ => none
  | (k, v) :: rest, key => if k = key then some v else lookupF rest key

/-- `getattr(inst, k, None)`: `None` when the instance is `None`, not an
object, or lacks the member. -/
def pyGetattr (inst : Option Inst) (k : String) : Option Inst :=
  match inst with
  | some (.obj fs) => lookupF fs k
  | _ => none

mutual

/-- Modelled from the spec: the dispatch of spyne's `to_parent` — the
external type-reflection/serialization framework that the spec treats as
an opaque collaborator, whose code is not part of this repository — sends
a `None` instance to the null handler, which writes without recursing into
the member schema; the spec asserts the walk terminates "in particular
when the instance being rendered is None or lacks the recursive member".
For a present complex instance the dispatch reaches
`complex_model_to_parent`, whose field loop is `walkFields`: it reads each
member with `getattr(inst, k, None)` and recurses.  Rendering output is
elided: only the recursion structure decides termination. -/
def to_parentF (sch : Schema) : Nat -> FieldTy -> Option Inst -> Option Unit
  | 0, _, _ => none
  | _ + 1, .prim, _ => some ()
  | fuel + 1, .complexT t, inst =>
      match inst with
      | none => some ()
      | some i => walkFields sch fuel (sch.fieldsOf t) i
termination_by fuel _ _ => (fuel, 0)

/-- The field loop of `complex_model_to_parent` seen by the recursion:
`subinst = getattr(inst, k, None); self.to_parent(ctx, v, subinst, ...)`
for each field in order. -/
def walkFields (sch : Schema) : Nat -> List (String × FieldTy) -> Inst -> Option Unit
  | _, [], _ => some ()
  | fuel, (k, ty) :: rest, i =>
      match to_parentF sch fuel ty (pyGetattr (some i) k) with
      | none => none
      | some _ => walkFields sch fuel rest i
termination_by fuel l _ => (fuel, l.length + 1)

end

theorem lookupF_size : forall (fs : List (String × Inst)) (k : String) (v : Inst),
    lookupF fs k = some v -> instSize v ≤ instFieldsSize fs := by
  intro fs
  induction fs with
  | nil => intro k v h; simp [lookupF] at h
  | cons p rest ih =>
      intro k v h
      obtain ⟨k0, v0⟩ := p
      by_cases hk : k0 = k
      · simp only [lookupF, hk, if_true, Option.some.injEq] at h
        subst h
        simp only [instFieldsSize]
        omega
      · simp only [lookupF, hk, if_false] at h
        have := ih k v h
        simp only [instFieldsSize]
        omega

theorem instSize_pos (i : Inst) : 1 ≤ instSize i := by
  cases i with
  | primV s => simp [instSize]
  | obj fs => simp only [instSize]; omega

theorem walk_total (sch : Schema) :
    forall fuel (inst : Option Inst) (ty : FieldTy), instSizeO inst < fuel ->
      (to_parentF sch fuel ty inst).isSome = true := by
  intro fuel
  induction fuel with
  | zero => intro inst ty h; omega
  | succ f ih =>
      intro inst ty h
      cases ty with
      | prim => simp [to_parentF]
      | complexT t =>
          cases inst with
          | none => simp [to_parentF]
          | some i =>
              have hsz : instSize i ≤ f := by
                simpa [instSizeO] using Nat.lt_succ_iff.mp h
              have hpos := instSize_pos i
              simp only [to_parentF]
              have hgen : forall (l : List (String × FieldTy)),
                  (walkFields sch f l i).isSome = true := by
                intro l
                induction l with
                | nil => simp [walkFields]
                | cons p rest ihl =>
                    obtain ⟨k, ty2⟩ := p
                    have hsub : (to_parentF sch f ty2 (pyGetattr (some i) k)).isSome
                        = true := by
                      apply ih
                      cases i with
                      | primV s =>
                          simp only [pyGetattr, instSizeO]
                          simp [instSize] at hsz
                          omega
                      | obj fs =>
                          cases hlk : lookupF fs k with
                          | none =>
                              simp only [pyGetattr, hlk, instSizeO]
                              simp [instSize] at hsz
                              omega
                          | some v =>
                              have hle := lookupF_size fs k v hlk
                              simp only [pyGetattr, hlk, instSizeO]
                              simp [instSize] at hsz
                              omega
                    cases hsubeq : to_parentF sch f ty2 (pyGetattr (some i) k) with
                    | none => rw [hsubeq] at hsub; simp at hsub
                    | some u => simp [walkFields, hsubeq, ihl]
              exact hgen (sch.fieldsOf t)

/-- The claim `C3`: for every schema — including cyclic ones — and every
instance (in particular `None` and instances lacking the recursive
member), the recursive render tree-walk completes: the fuel
`instSizeO inst + 1`, computed from the instance alone, always suffices,
so the recursion depth is bounded by the finite instance, never by the
(possibly cyclic) schema. -/
theorem C3_render_walk_terminates (sch : Schema) (ty : FieldTy)
    (inst : Option Inst) :
    (to_parentF sch (instSizeO inst + 1) ty inst).isSome = true ∧
    ∃ fuel, (to_parentF sch fuel ty inst).isSome = true := by
  have h := walk_total sch (instSizeO inst + 1) inst ty (Nat.lt_succ_self _)
  exact ⟨h, instSizeO inst + 1, h⟩

end NeuronsForm
